import Mathlib

/-!
# Verification of the slot-availability computation of medibuddy-assist

Shallow embedding of `getAvailableTimeSlots` from `src/actions/appointments.ts`
(lines 349-476).  Time is modelled in whole minutes as `Nat`: a timestamp `t`
lies on calendar day `t / 1440`, at time-of-day `t % 1440` (1440 minutes per
day).  JavaScript `Date` comparison of the source (`<`, `>=`, `isBefore`,
`+d1 === +d2`) is comparison of these numbers.  The display strings produced
with `format` are modelled by the data they render: `format(t, "EEEE, MMMM d")`
and `format(day, "yyyy-MM-dd")` both determine, and are determined by, the
calendar-day number `t / 1440`, so both are modelled as that number.  The
`formatted` field (`"h:mm a - h:mm a"`, a rendering of the pair
startTime/endTime that no claim mentions) is omitted.

The embedding starts after the doctor-existence lookup (a database fetch, line
354-364, excluded by the spec as a persistence collaborator): the modelled
computation receives the list of availability records, the list of scheduled
appointments, and the value the source reads with `new Date()` (line 377), and
performs the `findFirst`-by-status step, the per-day projection, the
30-minute walk, and the grouping of `getAvailableTimeSlots` faithfully.
-/

/-- Number of minutes in one calendar day. -/
def minutesPerDay : Nat := 1440

/-- `status` of an availability record (`db.availability`): the source filters
on `status: "AVAILABLE"`. -/
inductive AvailStatus where
  | AVAILABLE
  | UNAVAILABLE
deriving Repr, DecidableEq

/-- An availability record: `startTime`/`endTime` are full timestamps whose
time-of-day components define the doctor's daily window (the source copies
them and overwrites the date part with `setFullYear`). -/
structure Availability where
  startTime : Nat
  endTime : Nat
  status : AvailStatus
deriving Repr, DecidableEq

/-- A scheduled appointment (`db.appointment`), the booked interval
`[startTime, endTime)`. -/
structure Appointment where
  startTime : Nat
  endTime : Nat
deriving Repr, DecidableEq

/-- `format(t, "EEEE, MMMM d")` / `format(t, "yyyy-MM-dd")`: the calendar-day
number of timestamp `t`. -/
def formatDay (t : Nat) : Nat := t / minutesPerDay

/-- One produced slot, source lines 440-449: `startTime`, `endTime`, and the
`day` label (`format(current, "EEEE, MMMM d")`). -/
structure TimeSlot where
  startTime : Nat
  endTime : Nat
  day : Nat
deriving Repr, DecidableEq

/-- One per-day group of the result (`TimeSlotDay` of the source):
`date` (`format(day, "yyyy-MM-dd")`), `displayDate`, `slots`. -/
structure TimeSlotDay where
  date : Nat
  displayDate : Nat
  slots : List TimeSlot
deriving Repr, DecidableEq

/-- date-fns `addMinutes`. -/
def addMinutes (t m : Nat) : Nat := t + m

/-- date-fns `isBefore`. -/
def isBefore (a b : Nat) : Bool := decide (a < b)

/-- The overlap test of source lines 430-439, for candidate
`[current, next)` against appointment `[aStart, aEnd)`:
`(current >= aStart && current < aEnd) || (next > aStart && next <= aEnd) ||
(current <= aStart && next >= aEnd)`. -/
def overlapsAppointment (current next aStart aEnd : Nat) : Bool :=
  (decide (aStart ≤ current) && decide (current < aEnd)) ||
  (decide (aStart < next) && decide (next ≤ aEnd)) ||
  (decide (current ≤ aStart) && decide (aEnd ≤ next))

/-- `availabilityStart.setFullYear(day.getFullYear(), day.getMonth(),
day.getDate())` (source lines 403-412): keep the time-of-day of `t`, move it
onto calendar day `day`. -/
def projectTimeOfDay (t day : Nat) : Nat :=
  day * minutesPerDay + t % minutesPerDay

/-- The `while` loop of source lines 417-453: starting from `current`, as long
as `current + 30 <= end` (the condition `isBefore(addMinutes(current, 30), end)
|| +addMinutes(current, 30) === +end`), skip the candidate when
`isBefore(current, now)` (past) or when some appointment overlaps, otherwise
push the slot `[current, current + 30)`; then advance `current` by 30. -/
def slotLoop (now : Nat) (appts : List Appointment) (endT : Nat)
    (current : Nat) : List TimeSlot :=
  if isBefore (addMinutes current 30) endT || addMinutes current 30 == endT then
    let next := addMinutes current 30
    if isBefore current now then
      slotLoop now appts endT next
    else if appts.any fun a => overlapsAppointment current next a.startTime a.endTime then
      slotLoop now appts endT next
    else
      { startTime := current, endTime := next, day := formatDay current }
        :: slotLoop now appts endT next
  else
    []
termination_by endT - current
decreasing_by
  all_goals
    simp only [isBefore, addMinutes, Bool.or_eq_true, decide_eq_true_eq, beq_iff_eq] at *
    omega

/-- Source lines 399-455 for one `day`: project the availability record's
start/end time-of-day onto that day and run the 30-minute walk. -/
def slotsForDay (availability : Availability) (appts : List Appointment)
    (now day : Nat) : List TimeSlot :=
  slotLoop now appts (projectTimeOfDay availability.endTime day)
    (projectTimeOfDay availability.startTime day)

/-- `db.availability.findFirst({ where: { status: "AVAILABLE" } })`
(source lines 366-372). -/
def findFirstAvailable (avails : List Availability) : Option Availability :=
  avails.find? fun a => a.status == AvailStatus.AVAILABLE

/-- The computation of `getAvailableTimeSlots` after the doctor lookup: pick
the first AVAILABLE record (throwing `"No availability set by doctor"` if none,
which the catch block of lines 470-476 rethrows with the prefix
`"Failed to fetch available slots: "`), walk the four days
`[now, addDays(now,1), addDays(now,2), addDays(now,3)]`, and group the slots
per day (lines 457-469); `displayDate` is `slots[0].day` when the day has
slots, otherwise `format(new Date(date), "EEEE, MMMM d")`. -/
def getAvailableTimeSlots (avails : List Availability)
    (appts : List Appointment) (now : Nat) :
    Except String (List TimeSlotDay) :=
  match findFirstAvailable avails with
  | none => .error "Failed to fetch available slots: No availability set by doctor"
  | some availability =>
    let day0 := formatDay now
    let days := [day0, day0 + 1, day0 + 2, day0 + 3]
    .ok (days.map fun day =>
      let slots := slotsForDay availability appts now day
      { date := day,
        displayDate := match slots with
          | [] => day
          | s :: _ => s.day,
        slots := slots })

/-- Modelled from the spec: the single canonical half-open overlap rule of
spec §4.1 step 4 — intervals `[a,b)` and `[c,d)` overlap iff `a < d && c < b`.
Used only to compare against `overlapsAppointment` of the source. -/
def specHalfOpenOverlap (a b c d : Nat) : Bool :=
  decide (a < d) && decide (c < b)

/-- The ambient state the source reads besides its fetched data: the system
clock, read internally with `const now = new Date()` (source line 377). -/
structure SystemEnv where
  clockNow : Nat
deriving Repr, DecidableEq

/-- `getAvailableTimeSlots` as run by the source: the reference time is not a
parameter but the ambient clock reading of `SystemEnv`. -/
def getAvailableTimeSlotsAmbient (env : SystemEnv) (avails : List Availability)
    (appts : List Appointment) : Except String (List TimeSlotDay) :=
  getAvailableTimeSlots avails appts env.clockNow

/-- Instrumentation of the `while` loop of lines 417-453: same guard and the
same 30-minute advance as `slotLoop`, counting the loop's iterations instead
of collecting slots. -/
def slotLoopIters (now : Nat) (appts : List Appointment) (endT : Nat)
    (current : Nat) : Nat :=
  if isBefore (addMinutes current 30) endT || addMinutes current 30 == endT then
    slotLoopIters now appts endT (addMinutes current 30) + 1
  else
    0
termination_by endT - current
decreasing_by
  simp only [isBefore, addMinutes, Bool.or_eq_true, decide_eq_true_eq, beq_iff_eq] at *
  omega

/-- Every slot collected by the loop starts no earlier than `now` and than the
walk origin, is aligned to the origin at a multiple of 30, spans exactly 30
minutes ending within the window, carries the day label of its start, and
fails the overlap test against every appointment of the input. -/
theorem slotLoop_mem_props (now : Nat) (appts : List Appointment) (endT : Nat)
    (current : Nat) :
    ∀ s ∈ slotLoop now appts endT current,
      now ≤ s.startTime ∧ current ≤ s.startTime ∧
      (s.startTime - current) % 30 = 0 ∧
      s.endTime = s.startTime + 30 ∧ s.endTime ≤ endT ∧
      s.day = formatDay s.startTime ∧
      ∀ a ∈ appts,
        overlapsAppointment s.startTime s.endTime a.startTime a.endTime = false := by
  induction current using slotLoop.induct now appts endT with
  | case1 c hcond next hpast ih =>
    rw [slotLoop, if_pos hcond, if_pos hpast]
    intro s hs
    obtain ⟨h1, h2, h3, h4, h5, h6, h7⟩ := ih s hs
    have hnext : next = c + 30 := rfl
    exact ⟨h1, by omega, by omega, h4, h5, h6, h7⟩
  | case2 c hcond next hpast hov ih =>
    rw [slotLoop, if_pos hcond, if_neg hpast, if_pos hov]
    intro s hs
    obtain ⟨h1, h2, h3, h4, h5, h6, h7⟩ := ih s hs
    have hnext : next = c + 30 := rfl
    exact ⟨h1, by omega, by omega, h4, h5, h6, h7⟩
  | case3 c hcond next hpast hov ih =>
    rw [slotLoop, if_pos hcond, if_neg hpast, if_neg hov]
    intro s hs
    simp only [List.mem_cons] at hs
    have hnext : next = c + 30 := rfl
    rcases hs with rfl | hs
    · simp only [isBefore, addMinutes, decide_eq_true_eq, not_lt] at hpast
      simp only [isBefore, addMinutes, Bool.or_eq_true, decide_eq_true_eq,
        beq_iff_eq] at hcond
      dsimp only
      refine ⟨hpast, le_refl _, by omega, by omega, by omega, rfl, ?_⟩
      intro a ha
      simp only [List.any_eq_true, not_exists, not_and, Bool.not_eq_true] at hov
      have := hov a ha
      rw [hnext] at this
      simpa [addMinutes] using this
    · obtain ⟨h1, h2, h3, h4, h5, h6, h7⟩ := ih s hs
      exact ⟨h1, by omega, by omega, h4, h5, h6, h7⟩
  | case4 c hcond =>
    rw [slotLoop, if_neg hcond]
    intro s hs
    exact absurd hs (List.not_mem_nil s)

/-- The loop collects slots in strictly increasing start-time order. -/
theorem slotLoop_sorted (now : Nat) (appts : List Appointment) (endT : Nat)
    (current : Nat) :
    (slotLoop now appts endT current).Pairwise
      (fun s t => s.startTime < t.startTime) := by
  induction current using slotLoop.induct now appts endT with
  | case1 c hcond next hpast ih =>
    rw [slotLoop, if_pos hcond, if_pos hpast]; exact ih
  | case2 c hcond next hpast hov ih =>
    rw [slotLoop, if_pos hcond, if_neg hpast, if_pos hov]; exact ih
  | case3 c hcond next hpast hov ih =>
    rw [slotLoop, if_pos hcond, if_neg hpast, if_neg hov]
    have hnext : next = c + 30 := rfl
    refine List.pairwise_cons.mpr ⟨?_, ih⟩
    intro t ht
    obtain ⟨_, h2, _⟩ := slotLoop_mem_props now appts endT next t ht
    dsimp only
    omega
  | case4 c hcond =>
    rw [slotLoop, if_neg hcond]; exact List.Pairwise.nil

/-- With no booked interval and a reference time at or before the walk origin,
the loop collects exactly the 30-minute steps that fit in the window. -/
theorem slotLoop_no_booking (now : Nat) (endT : Nat) (current : Nat)
    (hnow : now ≤ current) :
    slotLoop now [] endT current =
      (List.range ((endT - current) / 30)).map fun k =>
        { startTime := current + 30 * k, endTime := current + 30 * k + 30,
          day := formatDay (current + 30 * k) } := by
  induction current using slotLoop.induct now [] endT with
  | case1 c hcond next hpast ih =>
    simp only [isBefore, decide_eq_true_eq] at hpast
    omega
  | case2 c hcond next hpast hov ih =>
    simp at hov
  | case3 c hcond next hpast hov ih =>
    rw [slotLoop, if_pos hcond, if_neg hpast, if_neg hov]
    have hnext : next = c + 30 := rfl
    simp only [isBefore, addMinutes, Bool.or_eq_true, decide_eq_true_eq,
      beq_iff_eq] at hcond
    rw [ih (by omega)]
    simp only [hnext, addMinutes]
    have hrange : (endT - c) / 30 = ((endT - (c + 30)) / 30) + 1 := by omega
    rw [hrange, List.range_succ_eq_map, List.map_cons, List.map_map,
      List.cons.injEq]
    refine ⟨by simp, List.map_congr_left ?_⟩
    intro a ha
    have harg : c + 30 + 30 * a = c + 30 * (a + 1) := by omega
    simp [Function.comp, harg]
  | case4 c hcond =>
    rw [slotLoop, if_neg hcond]
    simp only [isBefore, addMinutes, Bool.or_eq_true, decide_eq_true_eq,
      beq_iff_eq, not_or] at hcond
    have h0 : (endT - c) / 30 = 0 := by omega
    rw [h0]
    simp

/-- The loop runs exactly `(endT - current) / 30` iterations. -/
theorem slotLoopIters_eq (now : Nat) (appts : List Appointment) (endT : Nat)
    (current : Nat) :
    slotLoopIters now appts endT current = (endT - current) / 30 := by
  induction current using slotLoopIters.induct now appts endT with
  | case1 c hcond ih =>
    rw [slotLoopIters, if_pos hcond, ih]
    simp only [isBefore, addMinutes, Bool.or_eq_true, decide_eq_true_eq,
      beq_iff_eq] at hcond
    simp only [addMinutes]
    omega
  | case2 c hcond =>
    rw [slotLoopIters, if_neg hcond]
    simp only [isBefore, addMinutes, Bool.or_eq_true, decide_eq_true_eq,
      beq_iff_eq, not_or] at hcond
    omega

/-- The loop collects at most one slot per iteration. -/
theorem slotLoop_length_le_iters (now : Nat) (appts : List Appointment)
    (endT : Nat) (current : Nat) :
    (slotLoop now appts endT current).length ≤
      slotLoopIters now appts endT current := by
  induction current using slotLoop.induct now appts endT with
  | case1 c hcond next hpast ih =>
    rw [slotLoop, if_pos hcond, if_pos hpast, slotLoopIters, if_pos hcond]
    have ihx : (slotLoop now appts endT (addMinutes c 30)).length ≤
        slotLoopIters now appts endT (addMinutes c 30) := ih
    omega
  | case2 c hcond next hpast hov ih =>
    rw [slotLoop, if_pos hcond, if_neg hpast, if_pos hov, slotLoopIters,
      if_pos hcond]
    have ihx : (slotLoop now appts endT (addMinutes c 30)).length ≤
        slotLoopIters now appts endT (addMinutes c 30) := ih
    omega
  | case3 c hcond next hpast hov ih =>
    rw [slotLoop, if_pos hcond, if_neg hpast, if_neg hov, slotLoopIters,
      if_pos hcond]
    have ihx : (slotLoop now appts endT (addMinutes c 30)).length ≤
        slotLoopIters now appts endT (addMinutes c 30) := ih
    simp only [List.length_cons]
    omega
  | case4 c hcond =>
    rw [slotLoop, if_neg hcond, slotLoopIters, if_neg hcond]
    exact Nat.le_refl 0

/-- A window already exhausted (or degenerate) yields no iteration and no
slot. -/
theorem slotLoop_eq_nil_of_le (now : Nat) (appts : List Appointment)
    (endT : Nat) (current : Nat) (h : endT ≤ current) :
    slotLoop now appts endT current = [] := by
  rw [slotLoop, if_neg]
  simp only [isBefore, addMinutes, Bool.or_eq_true, decide_eq_true_eq,
    beq_iff_eq, not_or]
  omega

/-- The canonical half-open overlap implies the source's three-branch test. -/
theorem halfOpen_imp_overlaps (current next aStart aEnd : Nat)
    (h : specHalfOpenOverlap current next aStart aEnd = true) :
    overlapsAppointment current next aStart aEnd = true := by
  simp only [specHalfOpenOverlap, Bool.and_eq_true, decide_eq_true_eq] at h
  simp only [overlapsAppointment, Bool.or_eq_true, Bool.and_eq_true,
    decide_eq_true_eq]
  omega

/-- On a nonempty booked interval and a 30-minute candidate, the source's
three-branch test agrees with the canonical half-open rule. -/
theorem overlaps_eq_halfOpen (current aStart aEnd : Nat) (hb : aStart < aEnd) :
    overlapsAppointment current (current + 30) aStart aEnd =
      specHalfOpenOverlap current (current + 30) aStart aEnd := by
  rw [Bool.eq_iff_iff]
  simp only [overlapsAppointment, specHalfOpenOverlap, Bool.or_eq_true,
    Bool.and_eq_true, decide_eq_true_eq]
  omega

/-- Shape of a successful result: there is a found availability record and the
output is the four-day map built from it. -/
theorem getAvailable_ok_elim {avails : List Availability}
    {appts : List Appointment} {now : Nat} {ds : List TimeSlotDay}
    (h : getAvailableTimeSlots avails appts now = Except.ok ds) :
    ∃ availability, findFirstAvailable avails = some availability ∧
      ds = [formatDay now, formatDay now + 1, formatDay now + 2,
            formatDay now + 3].map fun day =>
        { date := day,
          displayDate := match slotsForDay availability appts now day with
            | [] => day
            | s :: _ => s.day,
          slots := slotsForDay availability appts now day } := by
  cases hfind : findFirstAvailable avails with
  | none =>
    rw [getAvailableTimeSlots, hfind] at h
    cases h
  | some availability =>
    rw [getAvailableTimeSlots, hfind] at h
    refine ⟨availability, rfl, ?_⟩
    cases h
    rfl

/-- Every slot of a day's walk carries that day's label. -/
theorem slotsForDay_day_label (availability : Availability)
    (appts : List Appointment) (now day : Nat) :
    ∀ s ∈ slotsForDay availability appts now day, s.day = day := by
  intro s hs
  obtain ⟨_, h2, _, h4, h5, h6, _⟩ :=
    slotLoop_mem_props now appts (projectTimeOfDay availability.endTime day)
      (projectTimeOfDay availability.startTime day) s hs
  rw [h6, formatDay]
  simp only [projectTimeOfDay, minutesPerDay] at h2 h5 ⊢
  have hs1 : availability.startTime % 1440 < 1440 := Nat.mod_lt _ (by omega)
  have hs2 : availability.endTime % 1440 < 1440 := Nat.mod_lt _ (by omega)
  omega

/-- Pointwise-equal predicates make `List.any` agree. -/
theorem list_any_congr {α : Type} {l : List α} {p q : α → Bool}
    (h : ∀ a ∈ l, p a = q a) : l.any p = l.any q := by
  induction l with
  | nil => rfl
  | cons a t ih =>
    simp only [List.any_cons, h a (List.mem_cons_self a t),
      ih fun b hb => h b (List.mem_cons_of_mem a hb)]

/-- C1: for every slot `s` in the output of the availability computation and
every booked interval `b` of the input booked set, `s` does not overlap `b`
under half-open semantics: `!(s.startTime < b.endTime && b.startTime <
s.endTime)`. -/
theorem slots_never_overlap_booked (avails : List Availability)
    (appts : List Appointment) (now : Nat) (ds : List TimeSlotDay)
    (hok : getAvailableTimeSlots avails appts now = Except.ok ds) :
    ∀ d ∈ ds, ∀ s ∈ d.slots, ∀ b ∈ appts,
      ¬(s.startTime < b.endTime ∧ b.startTime < s.endTime) := by
  obtain ⟨availability, hfind, rfl⟩ := getAvailable_ok_elim hok
  intro d hd s hs b hb hcontra
  simp only [List.mem_map] at hd
  obtain ⟨day, hday, rfl⟩ := hd
  dsimp only at hs
  obtain ⟨_, _, _, _, _, _, h7⟩ :=
    slotLoop_mem_props now appts (projectTimeOfDay availability.endTime day)
      (projectTimeOfDay availability.startTime day) s hs
  have hov := halfOpen_imp_overlaps s.startTime s.endTime b.startTime b.endTime
    (by
      simp only [specHalfOpenOverlap, Bool.and_eq_true, decide_eq_true_eq]
      exact ⟨hcontra.1, hcontra.2⟩)
  rw [h7 b hb] at hov
  cases hov

set_option maxRecDepth 8000 in
/-- Witness for C1 at a doctor window 09:00-10:00, booking [09:00, 09:30) and
reference midnight: the surviving slot [09:30, 10:00) does not half-open
overlap the booking. -/
theorem slots_never_overlap_booked_witness :
    ¬((570 : Nat) < 570 ∧ (540 : Nat) < 600) :=
  slots_never_overlap_booked [⟨540, 600, .AVAILABLE⟩] [⟨540, 570⟩] 0
    [⟨0, 0, [⟨570, 600, 0⟩]⟩,
     ⟨1, 1, [⟨1980, 2010, 1⟩, ⟨2010, 2040, 1⟩]⟩,
     ⟨2, 2, [⟨3420, 3450, 2⟩, ⟨3450, 3480, 2⟩]⟩,
     ⟨3, 3, [⟨4860, 4890, 3⟩, ⟨4890, 4920, 3⟩]⟩]
    (by
      simp [getAvailableTimeSlots, findFirstAvailable, slotsForDay,
        projectTimeOfDay, slotLoop, formatDay, minutesPerDay, isBefore,
        addMinutes, overlapsAppointment])
    ⟨0, 0, [⟨570, 600, 0⟩]⟩ (by simp)
    ⟨570, 600, 0⟩ (by simp)
    ⟨540, 570⟩ (by simp)

/-- C2: given every booked interval is nonempty, a 30-minute candidate
`[current, current+30)` is discarded exactly when some booked interval
satisfies the canonical half-open rule `current < aEnd && aStart < next`;
and a candidate ending exactly at a booking's start, or starting exactly at a
booking's end, is never discarded. -/
theorem discard_iff_canonical_half_open (appts : List Appointment)
    (current : Nat) (hwf : ∀ a ∈ appts, a.startTime < a.endTime) :
    ((appts.any fun a =>
        overlapsAppointment current (addMinutes current 30)
          a.startTime a.endTime) =
      (appts.any fun a =>
        specHalfOpenOverlap current (addMinutes current 30)
          a.startTime a.endTime)) ∧
    (∀ a : Appointment, a.startTime < a.endTime →
      addMinutes current 30 = a.startTime ∨ current = a.endTime →
      overlapsAppointment current (addMinutes current 30)
        a.startTime a.endTime = false) := by
  constructor
  · refine list_any_congr ?_
    intro a ha
    simpa [addMinutes] using
      overlaps_eq_halfOpen current a.startTime a.endTime (hwf a ha)
  · intro a hlt hadj
    simp only [addMinutes] at hadj
    cases hov : overlapsAppointment current (addMinutes current 30)
        a.startTime a.endTime with
    | false => rfl
    | true =>
      exfalso
      simp only [overlapsAppointment, addMinutes, Bool.or_eq_true,
        Bool.and_eq_true, decide_eq_true_eq] at hov
      rcases hadj with h | h <;> omega

/-- Witness for C2: one booking [09:00, 09:30), candidate [09:30, 10:00)
starting exactly at the booking's end: the candidate is not discarded, in
agreement with the canonical rule. -/
theorem discard_iff_canonical_half_open_witness :
    (([⟨540, 570⟩] : List Appointment).any fun a =>
        overlapsAppointment 570 (addMinutes 570 30) a.startTime a.endTime) =
      (([⟨540, 570⟩] : List Appointment).any fun a =>
        specHalfOpenOverlap 570 (addMinutes 570 30) a.startTime a.endTime) :=
  (discard_iff_canonical_half_open [⟨540, 570⟩] 570 (by
    intro a ha
    simp only [List.mem_singleton] at ha
    subst ha
    decide)).1

/-- C3: every slot of the output starts at or after the reference time `now`
(a candidate strictly before `now` is discarded), and a candidate starting
exactly at `now` is not discarded: with no bookings it is produced as the next
slot whenever it fits the window. -/
theorem slots_start_at_or_after_reference (avails : List Availability)
    (appts : List Appointment) (now : Nat) (ds : List TimeSlotDay)
    (hok : getAvailableTimeSlots avails appts now = Except.ok ds) :
    (∀ d ∈ ds, ∀ s ∈ d.slots, now ≤ s.startTime) ∧
    (∀ endT, now + 30 ≤ endT →
      slotLoop now [] endT now =
        { startTime := now, endTime := addMinutes now 30, day := formatDay now }
          :: slotLoop now [] endT (addMinutes now 30)) := by
  constructor
  · obtain ⟨availability, hfind, rfl⟩ := getAvailable_ok_elim hok
    intro d hd s hs
    simp only [List.mem_map] at hd
    obtain ⟨day, hday, rfl⟩ := hd
    dsimp only at hs
    exact (slotLoop_mem_props now appts
      (projectTimeOfDay availability.endTime day)
      (projectTimeOfDay availability.startTime day) s hs).1
  · intro endT hE
    have h1 : (isBefore (addMinutes now 30) endT || addMinutes now 30 == endT)
        = true := by
      simp only [isBefore, addMinutes, Bool.or_eq_true, decide_eq_true_eq,
        beq_iff_eq]
      omega
    have h2 : isBefore now now = false := by simp [isBefore]
    rw [slotLoop, if_pos h1]
    dsimp only
    rw [h2]
    simp only [Bool.false_eq_true, if_false, List.any_nil]

set_option maxRecDepth 8000 in
/-- Witness for C3: reference time 09:15 of day 1, window 09:00-10:00, no
bookings: day 1 keeps only the 09:30 slot (the 09:00 candidate is past), and
the exact-start unfolding holds at a reference time of 09:30. -/
theorem slots_start_at_or_after_reference_witness :
    (∀ d ∈ [(⟨1, 1, [⟨2010, 2040, 1⟩]⟩ : TimeSlotDay),
            ⟨2, 2, [⟨3420, 3450, 2⟩, ⟨3450, 3480, 2⟩]⟩,
            ⟨3, 3, [⟨4860, 4890, 3⟩, ⟨4890, 4920, 3⟩]⟩,
            ⟨4, 4, [⟨6300, 6330, 4⟩, ⟨6330, 6360, 4⟩]⟩],
      ∀ s ∈ d.slots, (1995 : Nat) ≤ s.startTime) ∧
    (∀ endT, 1995 + 30 ≤ endT →
      slotLoop 1995 [] endT 1995 =
        { startTime := 1995, endTime := addMinutes 1995 30,
          day := formatDay 1995 } :: slotLoop 1995 [] endT (addMinutes 1995 30)) :=
  slots_start_at_or_after_reference [⟨540, 600, .AVAILABLE⟩] [] 1995
    [⟨1, 1, [⟨2010, 2040, 1⟩]⟩,
     ⟨2, 2, [⟨3420, 3450, 2⟩, ⟨3450, 3480, 2⟩]⟩,
     ⟨3, 3, [⟨4860, 4890, 3⟩, ⟨4890, 4920, 3⟩]⟩,
     ⟨4, 4, [⟨6300, 6330, 4⟩, ⟨6330, 6360, 4⟩]⟩]
    (by
      simp [getAvailableTimeSlots, findFirstAvailable, slotsForDay,
        projectTimeOfDay, slotLoop, formatDay, minutesPerDay, isBefore,
        addMinutes, overlapsAppointment])

/-- C4: on a day whose projected window `[dayStart, dayEnd)` is nonempty, with
no booked intervals and a reference time at or before `dayStart`, the produced
slots are exactly `[dayStart + 30k, dayStart + 30(k+1))` for every `k` with
`dayStart + 30(k+1) ≤ dayEnd` (the trailing candidate ending exactly at
`dayEnd` included, the first candidate past it excluded). -/
theorem no_booking_day_slots_exact (availability : Availability)
    (now day : Nat)
    (hwin : projectTimeOfDay availability.startTime day <
      projectTimeOfDay availability.endTime day)
    (hnow : now ≤ projectTimeOfDay availability.startTime day) :
    slotsForDay availability [] now day =
      (List.range
          ((projectTimeOfDay availability.endTime day -
            projectTimeOfDay availability.startTime day) / 30)).map fun k =>
        { startTime := projectTimeOfDay availability.startTime day + 30 * k,
          endTime := projectTimeOfDay availability.startTime day + 30 * k + 30,
          day := formatDay
            (projectTimeOfDay availability.startTime day + 30 * k) } :=
  slotLoop_no_booking now (projectTimeOfDay availability.endTime day)
    (projectTimeOfDay availability.startTime day) hnow

/-- Witness for C4 on the spec's scenarios: window 09:00-17:00 on day 0, no
bookings, reference 08:00, yields the 16 slots 09:00 through 16:30; window
09:00-09:30 yields exactly the one slot equal to the full window. -/
theorem no_booking_day_slots_exact_witness :
    slotsForDay ⟨540, 1020, .AVAILABLE⟩ [] 480 0 =
      (List.range 16).map (fun k =>
        { startTime := 540 + 30 * k, endTime := 540 + 30 * k + 30,
          day := formatDay (540 + 30 * k) }) ∧
    slotsForDay ⟨540, 570, .AVAILABLE⟩ [] 480 0 = [⟨540, 570, 0⟩] := by
  constructor
  · have h := no_booking_day_slots_exact ⟨540, 1020, .AVAILABLE⟩ 480 0
      (by simp [projectTimeOfDay, minutesPerDay]) (by simp [projectTimeOfDay, minutesPerDay])
    simpa [projectTimeOfDay, minutesPerDay] using h
  · have h := no_booking_day_slots_exact ⟨540, 570, .AVAILABLE⟩ 480 0
      (by simp [projectTimeOfDay, minutesPerDay]) (by simp [projectTimeOfDay, minutesPerDay])
    simp only [projectTimeOfDay, minutesPerDay] at h
    norm_num at h
    simpa [formatDay, minutesPerDay] using h

/-- C5: every slot of the output is aligned with its day's projected window
start at an exact multiple of 30 minutes and spans exactly 30 minutes. -/
theorem slots_aligned_thirty_minutes (avails : List Availability)
    (appts : List Appointment) (now : Nat) (ds : List TimeSlotDay)
    (availability : Availability)
    (hfind : findFirstAvailable avails = some availability)
    (hok : getAvailableTimeSlots avails appts now = Except.ok ds) :
    ∀ d ∈ ds, ∀ s ∈ d.slots,
      projectTimeOfDay availability.startTime d.date ≤ s.startTime ∧
      (s.startTime - projectTimeOfDay availability.startTime d.date) % 30 = 0 ∧
      s.endTime = s.startTime + 30 := by
  obtain ⟨availability', hfind', rfl⟩ := getAvailable_ok_elim hok
  rw [hfind] at hfind'
  cases hfind'
  intro d hd s hs
  simp only [List.mem_map] at hd
  obtain ⟨day, hday, rfl⟩ := hd
  dsimp only at hs ⊢
  obtain ⟨_, h2, h3, h4, _⟩ :=
    slotLoop_mem_props now appts (projectTimeOfDay availability.endTime day)
      (projectTimeOfDay availability.startTime day) s hs
  exact ⟨h2, h3, h4⟩

set_option maxRecDepth 8000 in
/-- Witness for C5: window 09:00-10:00, booking [09:00, 09:30), reference
midnight: every produced slot is 30 minutes long and 30-minute aligned to its
day's 09:00 window start. -/
theorem slots_aligned_thirty_minutes_witness :
    projectTimeOfDay 540 0 ≤ 570 ∧
    ((570 : Nat) - projectTimeOfDay 540 0) % 30 = 0 ∧
    (600 : Nat) = 570 + 30 :=
  slots_aligned_thirty_minutes [⟨540, 600, .AVAILABLE⟩] [⟨540, 570⟩] 0
    [⟨0, 0, [⟨570, 600, 0⟩]⟩,
     ⟨1, 1, [⟨1980, 2010, 1⟩, ⟨2010, 2040, 1⟩]⟩,
     ⟨2, 2, [⟨3420, 3450, 2⟩, ⟨3450, 3480, 2⟩]⟩,
     ⟨3, 3, [⟨4860, 4890, 3⟩, ⟨4890, 4920, 3⟩]⟩]
    ⟨540, 600, .AVAILABLE⟩ (by simp [findFirstAvailable])
    (by
      simp [getAvailableTimeSlots, findFirstAvailable, slotsForDay,
        projectTimeOfDay, slotLoop, formatDay, minutesPerDay, isBefore,
        addMinutes, overlapsAppointment])
    ⟨0, 0, [⟨570, 600, 0⟩]⟩ (by simp)
    ⟨570, 600, 0⟩ (by simp)

/-- The `displayDate` computed for a day record equals that day's own label,
whether or not the day has slots. -/
theorem displayDate_matches (availability : Availability)
    (appts : List Appointment) (now day : Nat) :
    (match slotsForDay availability appts now day with
      | [] => day
      | s :: _ => s.day) = day := by
  cases hsl : slotsForDay availability appts now day with
  | nil => rfl
  | cons s rest =>
    exact slotsForDay_day_label availability appts now day s
      (by rw [hsl]; exact List.mem_cons_self s rest)

/-- C6: a successful output has exactly one `TimeSlotDay` record per calendar
day for the 4 consecutive days starting at the reference time's date, in
chronological order; each record is present even with zero slots and carries
the display label of its own date, and its slots are in strictly increasing
start-time order. -/
theorem one_day_record_per_day (avails : List Availability)
    (appts : List Appointment) (now : Nat) (ds : List TimeSlotDay)
    (hok : getAvailableTimeSlots avails appts now = Except.ok ds) :
    ds.length = 4 ∧
    (∀ i (hi : i < ds.length), (ds.get ⟨i, hi⟩).date = formatDay now + i) ∧
    (∀ d ∈ ds, d.displayDate = d.date ∧
      d.slots.Pairwise fun s t => s.startTime < t.startTime) := by
  obtain ⟨availability, hfind, rfl⟩ := getAvailable_ok_elim hok
  refine ⟨by simp, ?_, ?_⟩
  · intro i hi
    simp only [List.length_map, List.length_cons, List.length_nil] at hi
    interval_cases i <;> rfl
  · intro d hd
    simp only [List.mem_map] at hd
    obtain ⟨day, hday, rfl⟩ := hd
    exact ⟨displayDate_matches availability appts now day,
      slotLoop_sorted now appts _ _⟩

/-- The four day records produced for a 09:00-10:00 window, no bookings,
reference midnight of day 0. -/
def day4Sample : List TimeSlotDay :=
  [⟨0, 0, [⟨540, 570, 0⟩, ⟨570, 600, 0⟩]⟩,
   ⟨1, 1, [⟨1980, 2010, 1⟩, ⟨2010, 2040, 1⟩]⟩,
   ⟨2, 2, [⟨3420, 3450, 2⟩, ⟨3450, 3480, 2⟩]⟩,
   ⟨3, 3, [⟨4860, 4890, 3⟩, ⟨4890, 4920, 3⟩]⟩]

set_option maxRecDepth 8000 in
/-- Witness for C6: the concrete four-day output for a 09:00-10:00 window with
no bookings has one record per consecutive day with matching labels and sorted
slots. -/
theorem one_day_record_per_day_witness :
    day4Sample.length = 4 ∧
    (∀ i (hi : i < day4Sample.length),
      (day4Sample.get ⟨i, hi⟩).date = formatDay 0 + i) ∧
    (∀ d ∈ day4Sample, d.displayDate = d.date ∧
      d.slots.Pairwise fun s t => s.startTime < t.startTime) :=
  one_day_record_per_day [⟨540, 600, .AVAILABLE⟩] [] 0 day4Sample
    (by
      simp [getAvailableTimeSlots, findFirstAvailable, slotsForDay,
        projectTimeOfDay, slotLoop, formatDay, minutesPerDay, isBefore,
        addMinutes, day4Sample])

/-- C7: when no availability record with status AVAILABLE exists, the
computation fails fast with the configuration error surfaced through the
catch-and-rethrow wrapper, and produces no day records at all. -/
theorem no_availability_fails_fast (avails : List Availability)
    (appts : List Appointment) (now : Nat)
    (hnone : findFirstAvailable avails = none) :
    getAvailableTimeSlots avails appts now =
      Except.error
        "Failed to fetch available slots: No availability set by doctor" := by
  rw [getAvailableTimeSlots, hnone]

/-- Witness for C7: a doctor whose only availability record is UNAVAILABLE
gets the error, not a (partial) slot list. -/
theorem no_availability_fails_fast_witness :
    getAvailableTimeSlots [⟨540, 600, .UNAVAILABLE⟩] [] 0 =
      Except.error
        "Failed to fetch available slots: No availability set by doctor" :=
  no_availability_fails_fast [⟨540, 600, .UNAVAILABLE⟩] [] 0
    (by simp [findFirstAvailable])

set_option maxRecDepth 8000 in
/-- Counterexample to C8: a malformed window whose daily start equals its
daily end (09:00-09:00) does not make the computation fail: it returns a
successful result (four day records with empty slot lists), not an error. -/
theorem malformed_window_no_failure :
    getAvailableTimeSlots [⟨540, 540, .AVAILABLE⟩] [] 0 =
      Except.ok [⟨0, 0, []⟩, ⟨1, 1, []⟩, ⟨2, 2, []⟩, ⟨3, 3, []⟩] := by
  simp [getAvailableTimeSlots, findFirstAvailable, slotsForDay,
    projectTimeOfDay, slotLoop, formatDay, minutesPerDay, isBefore, addMinutes]

/-- C8 as amended: a malformed window (daily start at or after daily end) is
not auto-corrected and yields no slots, but the computation does not fail: it
returns the usual four day records, each with an empty slot list. -/
theorem malformed_window_yields_empty_days (avails : List Availability)
    (appts : List Appointment) (now : Nat) (availability : Availability)
    (hfind : findFirstAvailable avails = some availability)
    (hmal : availability.endTime % minutesPerDay ≤
      availability.startTime % minutesPerDay) :
    ∃ ds, getAvailableTimeSlots avails appts now = Except.ok ds ∧
      ds.length = 4 ∧ ∀ d ∈ ds, d.slots = [] := by
  refine ⟨[formatDay now, formatDay now + 1, formatDay now + 2,
      formatDay now + 3].map fun day =>
        { date := day,
          displayDate := match slotsForDay availability appts now day with
            | [] => day
            | s :: _ => s.day,
          slots := slotsForDay availability appts now day },
    ?_, by simp, ?_⟩
  · rw [getAvailableTimeSlots, hfind]
  · intro d hd
    simp only [List.mem_map] at hd
    obtain ⟨day, hday, rfl⟩ := hd
    dsimp only
    simp only [slotsForDay]
    apply slotLoop_eq_nil_of_le
    simp only [projectTimeOfDay, minutesPerDay] at hmal ⊢
    omega

/-- Witness for C8 as amended: window 10:00-09:00 (start after end), not
corrected, no error, all four days empty. -/
theorem malformed_window_yields_empty_days_witness :
    ∃ ds, getAvailableTimeSlots [⟨600, 540, .AVAILABLE⟩] [] 0 = Except.ok ds ∧
      ds.length = 4 ∧ ∀ d ∈ ds, d.slots = [] :=
  malformed_window_yields_empty_days [⟨600, 540, .AVAILABLE⟩] [] 0
    ⟨600, 540, .AVAILABLE⟩ (by simp [findFirstAvailable])
    (by simp [minutesPerDay])

set_option maxRecDepth 8000 in
/-- Counterexample to C9: with the window and booked set held fixed, changing
only the ambient clock (which the source reads internally with `new Date()`)
changes the output, so the computation as implemented does depend on ambient
state beyond its declared inputs. -/
theorem output_depends_on_ambient_clock :
    getAvailableTimeSlotsAmbient ⟨0⟩ [⟨540, 600, .AVAILABLE⟩] [] ≠
      getAvailableTimeSlotsAmbient ⟨585⟩ [⟨540, 600, .AVAILABLE⟩] [] := by
  intro h
  simp [getAvailableTimeSlotsAmbient, getAvailableTimeSlots,
    findFirstAvailable, slotsForDay, projectTimeOfDay, slotLoop, formatDay,
    minutesPerDay, isBefore, addMinutes] at h

/-- C9 as amended: the computation is deterministic in (availability records,
booked set, clock reading): two runs whose ambient clock readings agree and
whose fetched data agree produce identical output — but the clock is ambient
state read internally, not a passed parameter (see the counterexample). -/
theorem deterministic_given_clock_and_data (env₁ env₂ : SystemEnv)
    (avails₁ avails₂ : List Availability) (appts₁ appts₂ : List Appointment)
    (ha : avails₁ = avails₂) (hb : appts₁ = appts₂)
    (hc : env₁.clockNow = env₂.clockNow) :
    getAvailableTimeSlotsAmbient env₁ avails₁ appts₁ =
      getAvailableTimeSlotsAmbient env₂ avails₂ appts₂ := by
  subst ha
  subst hb
  rw [getAvailableTimeSlotsAmbient, getAvailableTimeSlotsAmbient, hc]

/-- Witness for C9 as amended: two runs with equal data and equal clock
readings agree. -/
theorem deterministic_given_clock_and_data_witness :
    getAvailableTimeSlotsAmbient ⟨585⟩ [⟨540, 600, .AVAILABLE⟩] [⟨540, 570⟩] =
      getAvailableTimeSlotsAmbient ⟨585⟩ [⟨540, 600, .AVAILABLE⟩] [⟨540, 570⟩] :=
  deterministic_given_clock_and_data ⟨585⟩ ⟨585⟩ _ _ _ _ rfl rfl rfl

/-- C10: the per-day walk always terminates: it runs exactly
`(dayEnd - current) / 30` iterations (so at most window length divided by 30,
and zero once `current + 30` exceeds `dayEnd`), collects at most one slot per
iteration, and a degenerate projected window (`dayEnd ≤ dayStart`) runs zero
iterations and yields an empty slot list for that day. -/
theorem slot_walk_terminates (now : Nat) (appts : List Appointment)
    (endT current : Nat) (availability : Availability) (day : Nat) :
    slotLoopIters now appts endT current = (endT - current) / 30 ∧
    (slotLoop now appts endT current).length ≤
      slotLoopIters now appts endT current ∧
    (endT ≤ current → slotLoop now appts endT current = []) ∧
    (projectTimeOfDay availability.endTime day ≤
        projectTimeOfDay availability.startTime day →
      slotsForDay availability appts now day = []) := by
  refine ⟨slotLoopIters_eq now appts endT current,
    slotLoop_length_le_iters now appts endT current,
    fun h => slotLoop_eq_nil_of_le now appts endT current h,
    fun h => ?_⟩
  simp only [slotsForDay]
  exact slotLoop_eq_nil_of_le now appts _ _ h

/-- Witness for C10: a 09:00-10:00 window walk from 09:00 runs exactly two
iterations, and the degenerate 10:00-09:00 projected window yields no slots. -/
theorem slot_walk_terminates_witness :
    slotLoopIters 0 [] 600 540 = (600 - 540) / 30 ∧
    slotsForDay ⟨600, 540, .AVAILABLE⟩ [] 0 0 = [] := by
  have h := slot_walk_terminates 0 [] 600 540 ⟨600, 540, .AVAILABLE⟩ 0
  exact ⟨h.1, h.2.2.2 (by simp [projectTimeOfDay, minutesPerDay])⟩
